import Mathlib

set_option maxHeartbeats 1000000

/-!
Shallow embedding of `src/clean_registry.py` (Docker Registry cleaner).

The on-disk layout modelled here (spec section 6, "On-disk layout contract"):
for repository `R` and tag `T`,
  `R/_manifests/tags/T/current/link`        — content `sha256:<digest>`
  `R/_manifests/tags/T/index/sha256/<d>/`   — index entries (a set of digests)
  `R/_manifests/revisions/sha256/<d>/`      — revisions (a set of digests)

A tag directory is a pair of an optional current digest (`none` models a
missing `current/link` file) and the finite set of digests listed under
`index/sha256/`.  A repository is the association list of its tag
directories (directory listing of `_manifests/tags/`) together with the
finite set of revision digests.  A registry is the association list of
repositories (directory listing of the `repositories` root).
-/

abbrev Digest := String

structure TagDir where
  current : Option Digest
  index : Finset Digest
deriving DecidableEq

structure Repo where
  tags : List (String × TagDir)
  revisions : Finset Digest
deriving DecidableEq

abbrev Registry := List (String × Repo)

/-- Association-list lookup, modelling a path lookup by directory name. -/
def alookup {α : Type} (k : String) : List (String × α) → Option α
  | [] => none
  | p :: ps => if p.1 = k then some p.2 else alookup k ps

/-- The set of digests gathered by the glob
`repo/_manifests/tags/*/*/sha256/*` in `clean_revisions` (line 68): the
union of every tag's index set (the `current` directory has no `sha256`
subdirectory, so only `index/sha256/*` entries match). -/
def manifestsOf (tags : List (String × TagDir)) : Finset Digest :=
  tags.foldr (fun p acc => p.2.index ∪ acc) ∅

/-- The set of digests read by the glob
`repo/_manifests/tags/*/current/link` in `clean_repo` (lines 111-114):
the current digest of every tag that has a `current/link` file. -/
def currentsOf (tags : List (String × TagDir)) : Finset Digest :=
  tags.foldr (fun p acc =>
    match p.2.current with
    | some d => insert d acc
    | none => acc) ∅

/-- Model of `clean_revisions(repo)` (lines 65-71): delete every revision whose
digest is not present in some tag's index directory; the surviving
revision set is the intersection with `manifestsOf`. -/
def clean_revisions (r : Repo) : Repo :=
  { r with revisions := r.revisions.filter (fun d => d ∈ manifestsOf r.tags) }

/-- Model of `clean_tag(repo, tag)` (lines 74-91).  The `current/link` file exists
iff the tag is listed and its `current` field is `some`.  With the remove
flag the whole tag directory is removed; otherwise every index entry other
than the current digest is removed and then `clean_revisions` runs. -/
def clean_tag (remove : Bool) (r : Repo) (tag : String) : Bool × Repo :=
  match alookup tag r.tags with
  | none => (false, r)
  | some td =>
    match td.current with
    | none => (false, r)
    | some current =>
      if remove then
        (true, { r with tags := r.tags.filter (fun p => decide (p.1 ≠ tag)) })
      else
        let r' : Repo := { r with tags := r.tags.map (fun p =>
          if p.1 = tag then
            (p.1, { p.2 with index := p.2.index.filter (fun d => d = current) })
          else p) }
        (true, clean_revisions r')

/-- The no-tag, no-remove branch of `clean_repo` (lines 111-119): read the
current digest of every tag, delete every index entry (of every tag) whose
digest is not one of those currents, then `clean_revisions`. -/
def prune_all_tags (r : Repo) : Repo :=
  let currents := currentsOf r.tags
  let r' : Repo := { r with tags := r.tags.map (fun p =>
    (p.1, { p.2 with index := p.2.index.filter (fun d => d ∈ currents) })) }
  clean_revisions r'

/-- Model of `clean_repo(image)` after the repository directory has been found
(lines 102-120), parameterised by the already split `tag` part (empty
string when no tag was given).  `none` in the second component models
removal of the whole repository directory. -/
def clean_repo_found (remove : Bool) (tag : String) (r : Repo) : Bool × Option Repo :=
  if remove ∧ (tag = "" ∨ (r.tags.length = 1 ∧ tag ∈ r.tags.map Prod.fst)) then
    (true, none)
  else if tag ≠ "" then
    ((clean_tag remove r tag).1, some (clean_tag remove r tag).2)
  else
    (true, some (prune_all_tags r))

/-- Model of `image.split(":", 1) if ":" in image else (image, ...)`: split a char
list at the first occurrence of `sep`; `none` when `sep` is absent. -/
def splitFirst (sep : Char) : List Char → Option (List Char × List Char)
  | [] => none
  | c :: cs =>
    if c = sep then some ([], cs)
    else
      match splitFirst sep cs with
      | none => none
      | some pr => some (c :: pr.1, pr.2)

/-- The `repo, tag` split of `clean_repo` (line 96): the tag defaults to
the empty string when the image has no colon. -/
def splitImage (image : String) : String × String :=
  match splitFirst ':' image.data with
  | some pr => (⟨pr.1⟩, ⟨pr.2⟩)
  | none => (image, "")

/-- Model of `clean_repo(image)` (lines 94-120) at the registry level: a missing
repository directory reports failure and leaves the registry unchanged. -/
def clean_repo (remove : Bool) (reg : Registry) (image : String) : Bool × Registry :=
  let rt := splitImage image
  match alookup rt.1 reg with
  | none => (false, reg)
  | some r =>
    match clean_repo_found remove rt.2 r with
    | (b, none) => (b, reg.filter (fun p => decide (p.1 ≠ rt.1)))
    | (b, some r') => (b, reg.map (fun p => if p.1 = rt.1 then (p.1, r') else p))

/-! ### Name validation (`check_name`, lines 123-142) -/

/-- The character class `[a-zA-Z0-9_]` (first character of the tag regex). -/
def isTagFirst (c : Char) : Bool := c.isAlpha || c.isDigit || c == '_'

/-- The character class `[a-zA-Z0-9_.-]` (later characters of the tag regex). -/
def isTagRest (c : Char) : Bool := isTagFirst c || c == '.' || c == '-'

/-- Python's `$` anchor also matches just before a final newline, so a
regex `X$` applied with `re.match` accepts `s` iff `X` matches all of `s`
with at most one trailing newline removed (`X` here never matches a
newline itself). -/
def stripNl (l : List Char) : List Char :=
  if l.getLast? = some '\n' then l.dropLast else l

/-- Model of `re.match('[a-zA-Z0-9_][a-zA-Z0-9_.-]*$', tag)` as a Boolean. -/
def tagMatch (l : List Char) : Bool :=
  match stripNl l with
  | [] => false
  | c :: cs => isTagFirst c && cs.all isTagRest

/-- The character class `[a-z0-9]`. -/
def isLowerDigit (c : Char) : Bool := c.isLower || c.isDigit

/-- The groups part `(?:(?:[._]|__|[-]*)[a-z0-9]+)*` of the repository
path-component regex: repeatedly consume one separator (a dot, a single
underscore, a double underscore, or a run of hyphens — a run of zero
hyphens merges with the preceding block and is handled by the maximal
block consumption below) followed by a nonempty `[a-z0-9]+` block.  The
fuel argument bounds the recursion by the input length; each step consumes
at least one character, so the fuel never runs out on a reachable input. -/
def compGroups : Nat → List Char → Bool
  | _, [] => true
  | 0, _ :: _ => false
  | fuel + 1, c :: rest =>
    let step : List Char → Bool := fun l =>
      !(l.takeWhile isLowerDigit).isEmpty && compGroups fuel (l.dropWhile isLowerDigit)
    if c = '.' then step rest
    else if c = '_' then
      match rest with
      | '_' :: rest2 => step rest2
      | _ => step rest
    else if c = '-' then step (rest.dropWhile (fun d => d == '-'))
    else false

/-- Model of `re.match('[a-z0-9]+(?:(?:[._]|__|[-]*)[a-z0-9]+)*$', path)` as a
Boolean: a nonempty leading `[a-z0-9]+` block, then separator/block
groups, up to an optional trailing newline (Python `$`). -/
def compMatch (l : List Char) : Bool :=
  let s := stripNl l
  !(s.takeWhile isLowerDigit).isEmpty && compGroups s.length (s.dropWhile isLowerDigit)

/-- The tag part of `image.split(":", 1) if ":" in image else (image, "latest")`
used by `check_name` (line 125). -/
def tag_part (image : String) : List Char :=
  match splitFirst ':' image.data with
  | some pr => pr.2
  | none => "latest".data

/-- The repository part of the same split (line 125). -/
def repo_part (image : String) : List Char :=
  match splitFirst ':' image.data with
  | some pr => pr.1
  | none => image.data

/-- Python `str.split(sep)` for a single-character separator: keeps empty
segments, and splitting the empty string yields one empty segment. -/
def splitChar (sep : Char) : List Char → List (List Char)
  | [] => [[]]
  | c :: cs =>
    if c = sep then [] :: splitChar sep cs
    else
      match splitChar sep cs with
      | [] => [[c]]
      | h :: t => (c :: h) :: t

/-- Model of `check_name(image)` (lines 123-142): total length below 256, tag
length below 129, the tag regex, and the path-component regex on every
slash-separated component of the repository part. -/
def check_name (image : String) : Bool :=
  decide (image.data.length < 256) && decide ((tag_part image).length < 129) &&
  tagMatch (tag_part image) && (splitChar '/' (repo_part image)).all compMatch

/-! ### Orchestrator (`RegistryCleaner.__call__`, `garbage_collect`, `main`) -/

/-- External interactions of one run, in temporal order: the server stop
(line 172), the collector invocation (line 181), the server restart
(line 184). -/
inductive Event where
  | stopServer
  | gcRun
  | startServer
deriving DecidableEq

/-- The Python truthiness of `garbage_collect()`'s return value
(lines 235-252), given whether the script runs dockerized and the
collector's exit code.  Dockerized, the function returns the raw
`proc.wait()` exit status, which is truthy exactly when it is nonzero;
otherwise it returns `True if cli.wait() == 0 else False`. -/
def garbage_collect (dockerized : Bool) (collectorExit : Nat) : Bool :=
  if dockerized then decide (collectorExit ≠ 0) else decide (collectorExit = 0)

/-- The image loop of `RegistryCleaner.__call__` (lines 176-179):
`rc = 0`, then for each image `rc = 1` if `clean_repo` failed, threading
the registry state through. -/
def imagesStep (remove : Bool) (acc : Nat × Registry) (img : String) : Nat × Registry :=
  let st := clean_repo remove acc.2 img
  ((if st.1 then acc.1 else 1), st.2)

def runImages (remove : Bool) (reg : Registry) (images : List String) : Nat × Registry :=
  images.foldl (imagesStep remove) (0, reg)

/-- Model of `RegistryCleaner.__call__` (lines 171-185): stop the server, process
the given images (or every repository when none are given), run the
collector, restart the server, return the aggregate status. -/
def registry_cleaner_call (remove dockerized : Bool) (collectorExit : Nat)
    (argImages : List String) (reg : Registry) : Nat × Registry × List Event :=
  let images := if argImages = [] then reg.map Prod.fst else argImages
  let st := runImages remove reg images
  let rc := if garbage_collect dockerized collectorExit then st.1 else 1
  (rc, st.2, [Event.stopServer, Event.gcRun, Event.startServer])

/-- The post-parse behaviour of `main` (lines 281-289): any image failing
`check_name` exits with status 1 before the cleaner is even constructed
(so no server stop, no collector run); `-x` with no images likewise; else
the cleaner runs and its status becomes the exit status. -/
def main_run (remove dockerized : Bool) (collectorExit : Nat)
    (images : List String) (reg : Registry) : Nat × List Event :=
  if images.any (fun i => !(check_name i)) then (1, [])
  else if remove ∧ images = [] then (1, [])
  else
    let st := registry_cleaner_call remove dockerized collectorExit images reg
    (st.1, st.2.2)

/-! ### Concrete repositories and registries used in the theorems below -/

/-- A repository where a stale index entry of `t2` (digest `d3`) is the
only reference to revision `d3`. -/
def repoStale : Repo :=
  ⟨[("t1", ⟨some "d1", {"d1"}⟩), ("t2", ⟨some "d2", {"d2", "d3"}⟩)], {"d1", "d2", "d3"}⟩

/-- A one-tag repository whose current digest `d1` is in the index. -/
def repoW1 : Repo :=
  ⟨[("t1", ⟨some "d1", {"d1", "d3"}⟩)], {"d1", "d3"}⟩

/-- The idempotence example of the spec: tags `{t1→d1, t2→d2}`, stale
index entries `{t1: d1,d3; t2: d2,d4}`, revisions `{d1,d2,d3,d4}`. -/
def repoC2 : Repo :=
  ⟨[("t1", ⟨some "d1", {"d1", "d3"}⟩), ("t2", ⟨some "d2", {"d2", "d4"}⟩)],
   {"d1", "d2", "d3", "d4"}⟩

/-- The expected result of prune-all on `repoC2`. -/
def repoC2' : Repo :=
  ⟨[("t1", ⟨some "d1", {"d1"}⟩), ("t2", ⟨some "d2", {"d2"}⟩)], {"d1", "d2"}⟩

/-- A two-tag repository used for the delete-one-tag cases. -/
def repoTwoTags : Repo :=
  ⟨[("t1", ⟨some "d1", {"d1"}⟩), ("t2", ⟨some "d2", {"d2"}⟩)], {"d1", "d2"}⟩

/-- A registry with two repositories; `r1` has no tag `badtag`. -/
def regTwo : Registry :=
  [("r1", ⟨[("t1", ⟨some "d1", {"d1"}⟩)], {"d1"}⟩),
   ("r2", ⟨[("t2", ⟨some "d2", {"d2", "d3"}⟩)], {"d2", "d3"}⟩)]

/-! ### Helper lemmas -/

theorem repo_eq (a b : Repo) (h1 : a.tags = b.tags) (h2 : a.revisions = b.revisions) :
    a = b := by
  cases a; cases b; cases h1; cases h2; rfl

theorem manifestsOf_cons (p : String × TagDir) (l : List (String × TagDir)) :
    manifestsOf (p :: l) = p.2.index ∪ manifestsOf l := rfl

theorem currentsOf_cons (p : String × TagDir) (l : List (String × TagDir)) :
    currentsOf (p :: l) =
      match p.2.current with
      | some d => insert d (currentsOf l)
      | none => currentsOf l := rfl

theorem mem_manifestsOf {d : Digest} {l : List (String × TagDir)} :
    d ∈ manifestsOf l ↔ ∃ p ∈ l, d ∈ p.2.index := by
  induction l with
  | nil => simp [manifestsOf]
  | cons p ps ih =>
    rw [manifestsOf_cons]
    simp only [Finset.mem_union, ih, List.mem_cons]
    constructor
    · rintro (h | ⟨q, hq, hdq⟩)
      · exact ⟨p, Or.inl rfl, h⟩
      · exact ⟨q, Or.inr hq, hdq⟩
    · rintro ⟨q, hq | hq, hdq⟩
      · exact Or.inl (hq ▸ hdq)
      · exact Or.inr ⟨q, hq, hdq⟩

theorem mem_currentsOf {d : Digest} {l : List (String × TagDir)} :
    d ∈ currentsOf l ↔ ∃ p ∈ l, p.2.current = some d := by
  induction l with
  | nil => simp [currentsOf]
  | cons p ps ih =>
    rw [currentsOf_cons]
    cases hc : p.2.current with
    | none =>
      simp only [ih, List.mem_cons]
      constructor
      · rintro ⟨q, hq, hdq⟩; exact ⟨q, Or.inr hq, hdq⟩
      · rintro ⟨q, hq | hq, hdq⟩
        · rw [hq, hc] at hdq; cases hdq
        · exact ⟨q, hq, hdq⟩
    | some c =>
      simp only [Finset.mem_insert, ih, List.mem_cons]
      constructor
      · rintro (h | ⟨q, hq, hdq⟩)
        · exact ⟨p, Or.inl rfl, by rw [hc, h]⟩
        · exact ⟨q, Or.inr hq, hdq⟩
      · rintro ⟨q, hq | hq, hdq⟩
        · rw [hq, hc] at hdq
          exact Or.inl (Option.some.inj hdq).symm
        · exact Or.inr ⟨q, hq, hdq⟩

theorem currentsOf_map_index (l : List (String × TagDir))
    (f : String × TagDir → Finset Digest) :
    currentsOf (l.map (fun p => (p.1, ⟨p.2.current, f p⟩))) = currentsOf l := by
  induction l with
  | nil => rfl
  | cons p ps ih =>
    rw [List.map_cons, currentsOf_cons, currentsOf_cons]
    cases hc : p.2.current with
    | none => exact ih
    | some c => rw [ih]

theorem alookup_eq_of_mem {α : Type} {l : List (String × α)} {k : String}
    {p : String × α} (hnd : (l.map Prod.fst).Nodup) (hp : p ∈ l) (hk : p.1 = k) :
    alookup k l = some p.2 := by
  induction l with
  | nil => cases hp
  | cons q qs ih =>
    rw [List.map_cons, List.nodup_cons] at hnd
    rcases List.mem_cons.mp hp with hpe | hpm
    · subst hpe
      simp [alookup, hk]
    · have hq1 : ¬ q.1 = k := by
        intro hq1
        exact hnd.1 (hq1 ▸ hk ▸ List.mem_map_of_mem Prod.fst hpm)
      simp only [alookup, if_neg hq1]
      exact ih hnd.2 hpm

theorem forall₂_map_self {α β : Type} (R : α → β → Prop) (f : α → β) (l : List α)
    (h : ∀ a ∈ l, R a (f a)) : List.Forall₂ R l (l.map f) := by
  induction l with
  | nil => exact List.Forall₂.nil
  | cons a as ih =>
    exact List.Forall₂.cons (h a (List.mem_cons_self a as))
      (ih fun x hx => h x (List.mem_cons_of_mem a hx))

theorem finset_filter_idem (s : Finset Digest) (P : Digest → Prop) [DecidablePred P] :
    (s.filter P).filter P = s.filter P := by
  ext a
  simp only [Finset.mem_filter, and_assoc, and_self]

theorem stripNl_head {l : List Char} {c : Char} (h : l.head? = some c)
    (hne : c ≠ '\n') : (stripNl l).head? = some c := by
  cases l with
  | nil => cases h
  | cons a as =>
    have ha : a = c := by
      simpa using h
    subst ha
    cases as with
    | nil =>
      have : ([a] : List Char).getLast? = some a := rfl
      simp only [stripNl, this]
      rw [if_neg (by simpa using hne)]
      rfl
    | cons b bs =>
      simp only [stripNl]
      by_cases hl : (a :: b :: bs : List Char).getLast? = some '\n'
      · rw [if_pos hl]
        rfl
      · rw [if_neg hl]
        rfl

theorem tagMatch_false_of_head {l : List Char} {c : Char} (h : l.head? = some c)
    (hne : c ≠ '\n') (hf : isTagFirst c = false) : tagMatch l = false := by
  have hs := stripNl_head h hne
  unfold tagMatch
  cases hm : stripNl l with
  | nil => rfl
  | cons a as =>
    rw [hm] at hs
    have : a = c := by simpa using hs
    subst this
    show (isTagFirst a && as.all isTagRest) = false
    rw [hf]
    rfl

/-- Claim C9: any image whose tag part (the substring after the first
colon, or `latest` when there is none) has length at least 129, or starts
with a dot or a hyphen, is rejected by `check_name`. -/
theorem C9_check_name_rejects (image : String)
    (h : 129 ≤ (tag_part image).length ∨ (tag_part image).head? = some '.' ∨
      (tag_part image).head? = some '-') :
    check_name image = false := by
  rcases h with h | h | h
  · have hb : decide ((tag_part image).length < 129) = false := by
      simp only [decide_eq_false_iff_not, not_lt]
      exact h
    simp [check_name, hb]
  · have hm : tagMatch (tag_part image) = false :=
      tagMatch_false_of_head h (by decide) (by decide)
    simp [check_name, hm]
  · have hm : tagMatch (tag_part image) = false :=
      tagMatch_false_of_head h (by decide) (by decide)
    simp [check_name, hm]

theorem C9_check_name_rejects_w :
    ((129 ≤ (tag_part "a:.x").length ∨ (tag_part "a:.x").head? = some '.' ∨
      (tag_part "a:.x").head? = some '-') ∧ check_name "a:.x" = false) ∧
    (129 ≤ (tag_part "a:-x").length ∨ (tag_part "a:-x").head? = some '.' ∨
      (tag_part "a:-x").head? = some '-') ∧ check_name "a:-x" = false :=
  ⟨⟨by decide, C9_check_name_rejects "a:.x" (by decide)⟩,
   ⟨by decide, C9_check_name_rejects "a:-x" (by decide)⟩⟩

/-- Claim C3 (code bug): in the dockerized branch, `garbage_collect`
returns the raw `proc.wait()` exit status, so a failing collector (exit 2)
is truthy and the run exits 0, while a succeeding collector (exit 0) is
falsy and the run exits 1.  The non-dockerized branch converts the exit
code correctly.  Evaluated here on an empty batch over an empty registry. -/
theorem C3_collector_status_dockerized_bug :
    (main_run false true 2 [] []).1 = 0 ∧
    (main_run false true 0 [] []).1 = 1 ∧
    (main_run false false 2 [] []).1 = 1 ∧
    (main_run false false 0 [] []).1 = 0 := by decide

/-- Claim C1 (counterexample): on the tag-given prune path (no remove
flag), revision `d3` — referenced only by a stale index entry of the other
tag `t2` — survives `clean_repo` on `repo:t1`, yet no tag's current
pointer references it. -/
theorem C1_cex_tag_path_keeps_orphan :
    clean_repo_found false "t1" repoStale = (true, some repoStale) ∧
    "d3" ∈ repoStale.revisions ∧
    ∀ p ∈ repoStale.tags, p.2.current ≠ some "d3" := by decide

/-- Claim C5 (counterexample): when an argument fails validation, `main`
exits before the cleaner is constructed, so the collector never runs and
the server is never stopped or restarted — not "exactly once". -/
theorem C5_cex_validation_skips_collector :
    check_name "BAD" = false ∧
    (main_run false false 0 ["BAD"] []).2.count Event.gcRun = 0 ∧
    (main_run false false 0 ["BAD"] []).2.count Event.startServer = 0 := by decide

theorem prune_all_tags_tags (r : Repo) :
    (prune_all_tags r).tags = r.tags.map (fun p =>
      (p.1, ⟨p.2.current, p.2.index.filter (fun d => d ∈ currentsOf r.tags)⟩)) := rfl

theorem prune_all_tags_revisions (r : Repo) :
    (prune_all_tags r).revisions =
      r.revisions.filter (fun d => d ∈ manifestsOf ((prune_all_tags r).tags)) := rfl

/-- Claim C1 (amended): after the all-tags prune path (`clean_repo` with
no tag and no remove flag), every surviving revision digest is referenced
by some remaining tag's current pointer. -/
theorem C1_amended_prune_all_no_orphans (r : Repo) (d : Digest)
    (hd : d ∈ (prune_all_tags r).revisions) :
    ∃ p ∈ (prune_all_tags r).tags, p.2.current = some d := by
  rw [prune_all_tags_revisions] at hd
  have hman := (Finset.mem_filter.mp hd).2
  rw [mem_manifestsOf] at hman
  obtain ⟨q, hq, hdq⟩ := hman
  rw [prune_all_tags_tags] at hq
  obtain ⟨p, hp, hpq⟩ := List.mem_map.mp hq
  subst hpq
  have hcur : d ∈ currentsOf r.tags := (Finset.mem_filter.mp hdq).2
  obtain ⟨p₀, hp₀, hc₀⟩ := mem_currentsOf.mp hcur
  refine ⟨(p₀.1, ⟨p₀.2.current, p₀.2.index.filter (fun x => x ∈ currentsOf r.tags)⟩),
    ?_, hc₀⟩
  rw [prune_all_tags_tags]
  exact List.mem_map.mpr ⟨p₀, hp₀, rfl⟩

theorem C1_amended_prune_all_no_orphans_w :
    "d1" ∈ (prune_all_tags repoW1).revisions ∧
    ∃ p ∈ (prune_all_tags repoW1).tags, p.2.current = some "d1" :=
  ⟨by decide, C1_amended_prune_all_no_orphans repoW1 "d1" (by decide)⟩

theorem prune_all_tags_currents (r : Repo) :
    currentsOf ((prune_all_tags r).tags) = currentsOf r.tags := by
  rw [prune_all_tags_tags]
  exact currentsOf_map_index r.tags _

theorem prune_all_tags_tags_idem (r : Repo) :
    (prune_all_tags (prune_all_tags r)).tags = (prune_all_tags r).tags := by
  rw [prune_all_tags_tags (prune_all_tags r), prune_all_tags_currents,
    prune_all_tags_tags r, List.map_map]
  apply List.map_congr_left
  intro p _
  show (p.1, (⟨p.2.current,
      (p.2.index.filter (fun d => d ∈ currentsOf r.tags)).filter
        (fun d => d ∈ currentsOf r.tags)⟩ : TagDir)) = _
  rw [finset_filter_idem]

theorem prune_all_idem (r : Repo) :
    prune_all_tags (prune_all_tags r) = prune_all_tags r := by
  apply repo_eq
  · exact prune_all_tags_tags_idem r
  · rw [prune_all_tags_revisions (prune_all_tags r), prune_all_tags_tags_idem r,
      prune_all_tags_revisions r]
    exact finset_filter_idem _ _

/-- Claim C2: the whole-repository no-delete prune (`clean_repo` with no
tag, no remove flag) is the `prune_all_tags` transformation, it is
idempotent on every repository state, and on the spec's example it prunes
the index to `{t1: d1; t2: d2}` and the revisions to `{d1,d2}` in one run
while a second run changes nothing. -/
theorem C2_prune_idempotent :
    (∀ r : Repo, clean_repo_found false "" r = (true, some (prune_all_tags r)) ∧
      prune_all_tags (prune_all_tags r) = prune_all_tags r) ∧
    clean_repo_found false "" repoC2 = (true, some repoC2') ∧
    clean_repo_found false "" repoC2' = (true, some repoC2') := by
  refine ⟨fun r => ⟨?_, prune_all_idem r⟩, by decide, by decide⟩
  rfl

theorem clean_tag_frame (r : Repo) (t : String)
    (hnd : (r.tags.map Prod.fst).Nodup) :
    List.Forall₂ (fun p q => q.1 = p.1 ∧ q.2.current = p.2.current ∧
        q.2.index ⊆ p.2.index ∧
        ∀ d ∈ p.2.index, d ∉ q.2.index → p.2.current ≠ some d)
      r.tags (clean_tag false r t).2.tags ∧
    (clean_tag false r t).2.revisions ⊆ r.revisions := by
  cases hfind : alookup t r.tags with
  | none =>
    simp only [clean_tag, hfind]
    exact ⟨List.forall₂_same.mpr (fun p _ =>
        ⟨rfl, rfl, Finset.Subset.refl _, fun d hdi hdn _ => hdn hdi⟩),
      Finset.Subset.refl _⟩
  | some td =>
    cases hcur : td.current with
    | none =>
      simp only [clean_tag, hfind, hcur]
      exact ⟨List.forall₂_same.mpr (fun p _ =>
          ⟨rfl, rfl, Finset.Subset.refl _, fun d hdi hdn _ => hdn hdi⟩),
        Finset.Subset.refl _⟩
    | some cur =>
      simp only [clean_tag, hfind, hcur, Bool.false_eq_true, if_false]
      constructor
      · apply forall₂_map_self
        intro p hp
        by_cases hpt : p.1 = t
        · rw [if_pos hpt]
          refine ⟨rfl, rfl, Finset.filter_subset _ _, ?_⟩
          intro d hdi hdn hcurp
          have halk := alookup_eq_of_mem hnd hp hpt
          rw [hfind] at halk
          have hptd : p.2 = td := (Option.some.inj halk).symm
          rw [hptd, hcur] at hcurp
          have hdc : d = cur := (Option.some.inj hcurp).symm
          exact hdn (Finset.mem_filter.mpr ⟨hdi, hdc⟩)
        · rw [if_neg hpt]
          exact ⟨rfl, rfl, Finset.Subset.refl _, fun d hdi hdn _ => hdn hdi⟩
      · exact Finset.filter_subset _ _

/-- Claim C4: without the remove flag, `clean_repo` (hence also
`clean_tag`) never deletes the repository directory, a tag directory, or a
current pointer: the tag list keeps its names and current digests, index
sets only shrink, a deleted index entry is never the tag's own current
digest, and revisions only shrink.  The `Nodup` hypothesis states that the
tag directory names are distinct, which is forced by the filesystem. -/
theorem C4_no_remove_frame (r : Repo) (t : String)
    (hnd : (r.tags.map Prod.fst).Nodup) :
    ∃ r₂, (clean_repo_found false t r).2 = some r₂ ∧
      List.Forall₂ (fun p q => q.1 = p.1 ∧ q.2.current = p.2.current ∧
        q.2.index ⊆ p.2.index ∧
        ∀ d ∈ p.2.index, d ∉ q.2.index → p.2.current ≠ some d) r.tags r₂.tags ∧
      r₂.revisions ⊆ r.revisions := by
  by_cases ht : t = ""
  · subst ht
    refine ⟨prune_all_tags r, rfl, ?_, ?_⟩
    · rw [prune_all_tags_tags]
      apply forall₂_map_self
      intro p hp
      refine ⟨rfl, rfl, Finset.filter_subset _ _, ?_⟩
      intro d hdi hdn hcur
      exact hdn (Finset.mem_filter.mpr ⟨hdi, mem_currentsOf.mpr ⟨p, hp, hcur⟩⟩)
    · rw [prune_all_tags_revisions]
      exact Finset.filter_subset _ _
  · have h1 : clean_repo_found false t r =
        if t ≠ "" then ((clean_tag false r t).1, some (clean_tag false r t).2)
        else (true, some (prune_all_tags r)) := rfl
    refine ⟨(clean_tag false r t).2, ?_, (clean_tag_frame r t hnd).1,
      (clean_tag_frame r t hnd).2⟩
    rw [h1, if_pos ht]

theorem C4_no_remove_frame_w :
    ((repoStale.tags.map Prod.fst).Nodup) ∧
    ∃ r₂, (clean_repo_found false "t1" repoStale).2 = some r₂ ∧
      List.Forall₂ (fun p q => q.1 = p.1 ∧ q.2.current = p.2.current ∧
        q.2.index ⊆ p.2.index ∧
        ∀ d ∈ p.2.index, d ∉ q.2.index → p.2.current ≠ some d)
        repoStale.tags r₂.tags ∧
      r₂.revisions ⊆ repoStale.revisions :=
  ⟨by decide, C4_no_remove_frame repoStale "t1" (by decide)⟩

/-- Claim C5 (amended): whenever every image argument passes `check_name`
(in particular when all of them merely fail lookup on disk) and the
remove-flag/no-images input error does not fire, the collector is invoked
exactly once and the server is restarted exactly once.  When an argument
fails validation, however, `main` exits before the cleaner runs (see the
counterexample). -/
theorem C5_amended_collector_once (remove dockerized : Bool) (collectorExit : Nat)
    (images : List String) (reg : Registry)
    (hval : ∀ i ∈ images, check_name i = true)
    (hx : ¬(remove = true ∧ images = [])) :
    (main_run remove dockerized collectorExit images reg).2.count Event.gcRun = 1 ∧
    (main_run remove dockerized collectorExit images reg).2.count Event.startServer = 1 := by
  have h1 : (images.any fun i => !(check_name i)) = false := by
    rw [List.any_eq_false]
    intro i hi
    simp [hval i hi]
  have h2 : main_run remove dockerized collectorExit images reg =
      ((registry_cleaner_call remove dockerized collectorExit images reg).1,
       (registry_cleaner_call remove dockerized collectorExit images reg).2.2) := by
    unfold main_run
    rw [h1]
    rw [if_neg (by simp), if_neg hx]
  rw [h2]
  exact ⟨rfl, rfl⟩

theorem C5_amended_collector_once_w :
    (∀ i ∈ ["nosuch"], check_name i = true) ∧
    ¬(false = true ∧ ["nosuch"] = ([] : List String)) ∧
    ((main_run false false 0 ["nosuch"] []).2.count Event.gcRun = 1 ∧
     (main_run false false 0 ["nosuch"] []).2.count Event.startServer = 1) :=
  ⟨by decide, by decide,
    C5_amended_collector_once false false 0 ["nosuch"] [] (by decide) (by decide)⟩

theorem clean_revisions_revisions (r : Repo) :
    (clean_revisions r).revisions =
      r.revisions.filter (fun d => d ∈ manifestsOf r.tags) := rfl

theorem clean_tag_prune (r : Repo) (t : String) (td : TagDir) (cur : Digest)
    (hfind : alookup t r.tags = some td) (hcur : td.current = some cur) :
    clean_tag false r t = (true, clean_revisions ⟨r.tags.map (fun p =>
      if p.1 = t then (p.1, ⟨p.2.current, p.2.index.filter (fun d => d = cur)⟩)
      else p), r.revisions⟩) := by
  simp only [clean_tag, hfind, hcur, Bool.false_eq_true, if_false]

/-- Claim C6: in the single-tag no-delete case, assuming every tag's
current digest is a member of that tag's index set, the revision sweep
after pruning one tag's index never deletes a revision that is the current
digest of any tag of the repository. -/
theorem C6_single_tag_sweep_safe (r : Repo) (t : String)
    (hnd : (r.tags.map Prod.fst).Nodup)
    (hinv : ∀ p ∈ r.tags, ∀ d, p.2.current = some d → d ∈ p.2.index) :
    ∀ p ∈ r.tags, ∀ d, p.2.current = some d → d ∈ r.revisions →
      d ∈ (clean_tag false r t).2.revisions := by
  intro p hp d hc hd
  cases hfind : alookup t r.tags with
  | none =>
    simp only [clean_tag, hfind]
    exact hd
  | some td =>
    cases hcur : td.current with
    | none =>
      simp only [clean_tag, hfind, hcur]
      exact hd
    | some cur =>
      have h2 : (clean_tag false r t).2 = clean_revisions ⟨r.tags.map (fun q =>
          if q.1 = t then (q.1, ⟨q.2.current, q.2.index.filter (fun x => x = cur)⟩)
          else q), r.revisions⟩ := by
        rw [clean_tag_prune r t td cur hfind hcur]
      rw [h2, clean_revisions_revisions]
      refine Finset.mem_filter.mpr ⟨hd, ?_⟩
      rw [mem_manifestsOf]
      by_cases hpt : p.1 = t
      · have halk := alookup_eq_of_mem hnd hp hpt
        rw [hfind] at halk
        have hptd : p.2 = td := (Option.some.inj halk).symm
        have hdc : d = cur := by
          have hx := hptd ▸ hc
          rw [hcur] at hx
          exact (Option.some.inj hx).symm
        refine ⟨(p.1, ⟨p.2.current, p.2.index.filter (fun x => x = cur)⟩), ?_, ?_⟩
        · exact List.mem_map.mpr ⟨p, hp, by rw [if_pos hpt]⟩
        · exact Finset.mem_filter.mpr ⟨hinv p hp d hc, hdc⟩
      · refine ⟨p, ?_, hinv p hp d hc⟩
        exact List.mem_map.mpr ⟨p, hp, by rw [if_neg hpt]⟩

theorem C6_single_tag_sweep_safe_w :
    ((repoStale.tags.map Prod.fst).Nodup) ∧
    (∀ p ∈ repoStale.tags, ∀ d, p.2.current = some d → d ∈ p.2.index) ∧
    (∀ p ∈ repoStale.tags, ∀ d, p.2.current = some d → d ∈ repoStale.revisions →
      d ∈ (clean_tag false repoStale "t1").2.revisions) :=
  ⟨by decide, by decide,
    C6_single_tag_sweep_safe repoStale "t1" (by decide) (by decide)⟩

theorem singleton_of_length_mem {l : List String} {t : String}
    (hlen : l.length = 1) (hmem : t ∈ l) : l = [t] := by
  cases l with
  | nil => cases hmem
  | cons a as =>
    cases as with
    | nil =>
      have : t = a := List.mem_singleton.mp hmem
      rw [this]
    | cons b bs => simp at hlen

theorem clean_repo_found_remove_multi (r : Repo) (t : String) (td : TagDir)
    (cur : Digest) (hfind : alookup t r.tags = some td)
    (hcur : td.current = some cur) (hlen : 1 < r.tags.length) (ht : t ≠ "") :
    clean_repo_found true t r =
      (true, some ⟨r.tags.filter (fun p => decide (p.1 ≠ t)), r.revisions⟩) := by
  have hnc : ¬(true = true ∧ (t = "" ∨
      (r.tags.length = 1 ∧ t ∈ r.tags.map Prod.fst))) := by
    rintro ⟨-, h | h⟩
    · exact ht h
    · omega
  have hct : clean_tag true r t =
      (true, ⟨r.tags.filter (fun p => decide (p.1 ≠ t)), r.revisions⟩) := by
    simp only [clean_tag, hfind, hcur, if_true]
  unfold clean_repo_found
  rw [if_neg hnc, if_pos ht, hct]

/-- Claim C7: with the remove flag and a tag given, the whole repository
directory is removed iff the repository's tag list is exactly the given
tag; otherwise, when the tag exists (its current link is present) and the
repository has more than one tag, only that tag's directory is removed and
the repository, its other tags and its revisions remain. -/
theorem C7_remove_with_tag (r : Repo) (t : String) (ht : t ≠ "") :
    ((clean_repo_found true t r).2 = none ↔ r.tags.map Prod.fst = [t]) ∧
    ∀ td, alookup t r.tags = some td → ∀ cur, td.current = some cur →
      1 < r.tags.length →
      clean_repo_found true t r =
        (true, some ⟨r.tags.filter (fun p => decide (p.1 ≠ t)), r.revisions⟩) := by
  constructor
  · by_cases hcond : r.tags.length = 1 ∧ t ∈ r.tags.map Prod.fst
    · have hsing : r.tags.map Prod.fst = [t] :=
        singleton_of_length_mem (by rw [List.length_map]; exact hcond.1) hcond.2
      have hred : clean_repo_found true t r = (true, none) := by
        unfold clean_repo_found
        rw [if_pos ⟨rfl, Or.inr hcond⟩]
      rw [hred]
      exact ⟨fun _ => hsing, fun _ => rfl⟩
    · have hnc : ¬(true = true ∧ (t = "" ∨
          (r.tags.length = 1 ∧ t ∈ r.tags.map Prod.fst))) := by
        rintro ⟨-, h | h⟩
        · exact ht h
        · exact hcond h
      have hred : clean_repo_found true t r =
          ((clean_tag true r t).1, some (clean_tag true r t).2) := by
        unfold clean_repo_found
        rw [if_neg hnc, if_pos ht]
      rw [hred]
      constructor
      · intro h
        exact absurd h (Option.some_ne_none _)
      · intro h
        exfalso
        apply hcond
        refine ⟨?_, ?_⟩
        · rw [← List.length_map r.tags Prod.fst, h]
          rfl
        · rw [h]
          exact List.mem_singleton_self t
  · intro td hfind cur hcur hlen
    exact clean_repo_found_remove_multi r t td cur hfind hcur hlen ht

theorem C7_remove_with_tag_w :
    ("t1" ≠ "") ∧
    (((clean_repo_found true "t1" repoTwoTags).2 = none ↔
        repoTwoTags.tags.map Prod.fst = ["t1"]) ∧
     ∀ td, alookup "t1" repoTwoTags.tags = some td →
       ∀ cur, td.current = some cur → 1 < repoTwoTags.tags.length →
       clean_repo_found true "t1" repoTwoTags =
         (true, some ⟨repoTwoTags.tags.filter (fun p => decide (p.1 ≠ "t1")),
           repoTwoTags.revisions⟩)) :=
  ⟨by decide, C7_remove_with_tag repoTwoTags "t1" (by decide)⟩

/-- Claim C10: with the remove flag, a given tag with a present current
link, and more than one tag in the repository, `clean_tag` removes only
that tag's directory and performs no revision sweep: the revisions
directory is unchanged, so revisions referenced only by the deleted tag
survive as orphans. -/
theorem C10_remove_tag_no_sweep (r : Repo) (t : String) (td : TagDir) (cur : Digest)
    (hfind : alookup t r.tags = some td) (hcur : td.current = some cur)
    (hlen : 1 < r.tags.length) (ht : t ≠ "") :
    ∃ r₂, clean_repo_found true t r = (true, some r₂) ∧
      r₂.revisions = r.revisions ∧
      r₂.tags = r.tags.filter (fun p => decide (p.1 ≠ t)) ∧
      ∀ d ∈ r.revisions, d ∈ r₂.revisions := by
  refine ⟨⟨r.tags.filter (fun p => decide (p.1 ≠ t)), r.revisions⟩, ?_, rfl, rfl,
    fun d hd => hd⟩
  exact clean_repo_found_remove_multi r t td cur hfind hcur hlen ht

theorem C10_remove_tag_no_sweep_w :
    (alookup "t1" repoTwoTags.tags = some ⟨some "d1", {"d1"}⟩) ∧
    ((⟨some "d1", {"d1"}⟩ : TagDir).current = some "d1") ∧
    (1 < repoTwoTags.tags.length) ∧
    ∃ r₂, clean_repo_found true "t1" repoTwoTags = (true, some r₂) ∧
      r₂.revisions = repoTwoTags.revisions ∧
      r₂.tags = repoTwoTags.tags.filter (fun p => decide (p.1 ≠ "t1")) ∧
      ∀ d ∈ repoTwoTags.revisions, d ∈ r₂.revisions :=
  ⟨by decide, by decide, by decide,
    C10_remove_tag_no_sweep repoTwoTags "t1" ⟨some "d1", {"d1"}⟩ "d1"
      (by decide) (by decide) (by decide) (by decide)⟩

theorem foldl_imagesStep_fst_one (remove : Bool) (l : List String) :
    ∀ s : Registry, (l.foldl (imagesStep remove) (1, s)).1 = 1 := by
  induction l with
  | nil => intro s; rfl
  | cons i is ih =>
    intro s
    rw [List.foldl_cons]
    have hst : imagesStep remove (1, s) i = (1, (clean_repo remove s i).2) := by
      show ((if (clean_repo remove s i).1 = true then (1 : Nat) else 1),
        (clean_repo remove s i).2) = (1, (clean_repo remove s i).2)
      rw [ite_self]
    rw [hst]
    exact ih _

theorem foldl_imagesStep_snd (remove : Bool) (l : List String) :
    ∀ (a b : Nat) (s : Registry),
      (l.foldl (imagesStep remove) (a, s)).2 = (l.foldl (imagesStep remove) (b, s)).2 := by
  induction l with
  | nil => intro a b s; rfl
  | cons i is ih =>
    intro a b s
    rw [List.foldl_cons, List.foldl_cons]
    have ha : imagesStep remove (a, s) i =
        ((if (clean_repo remove s i).1 then a else 1), (clean_repo remove s i).2) := rfl
    have hb : imagesStep remove (b, s) i =
        ((if (clean_repo remove s i).1 then b else 1), (clean_repo remove s i).2) := rfl
    rw [ha, hb]
    exact ih _ _ _

/-- Claim C8: a failing item (missing repository or missing tag) makes its
`clean_repo` call report `false`, forces the aggregate status to 1 (so the
exit status is nonzero whatever the collector does), and does not abort
the batch: the remaining images are processed exactly as they would be
from the post-failure registry state. -/
theorem C8_partial_failure (remove : Bool) (reg : Registry) (img : String)
    (rest : List String) (h : (clean_repo remove reg img).1 = false) :
    (runImages remove reg (img :: rest)).1 = 1 ∧
    (runImages remove reg (img :: rest)).2 =
      (runImages remove ((clean_repo remove reg img).2) rest).2 ∧
    ∀ dockerized : Bool, ∀ collectorExit : Nat,
      (registry_cleaner_call remove dockerized collectorExit (img :: rest) reg).1 ≠ 0 := by
  have hstep : imagesStep remove (0, reg) img = (1, (clean_repo remove reg img).2) := by
    show ((if (clean_repo remove reg img).1 = true then (0 : Nat) else 1),
      (clean_repo remove reg img).2) = (1, (clean_repo remove reg img).2)
    rw [h]
    rfl
  have h1 : (runImages remove reg (img :: rest)).1 = 1 := by
    unfold runImages
    rw [List.foldl_cons, hstep]
    exact foldl_imagesStep_fst_one remove rest _
  refine ⟨h1, ?_, ?_⟩
  · unfold runImages
    rw [List.foldl_cons, hstep]
    exact foldl_imagesStep_snd remove rest 1 0 _
  · intro dockerized collectorExit
    have hr : (registry_cleaner_call remove dockerized collectorExit (img :: rest) reg).1 =
        if garbage_collect dockerized collectorExit
        then (runImages remove reg (img :: rest)).1 else 1 := rfl
    rw [hr, h1, ite_self]
    exact one_ne_zero

theorem C8_partial_failure_w :
    (clean_repo false regTwo "r1:badtag").1 = false ∧
    ((runImages false regTwo ["r1:badtag", "r2"]).1 = 1 ∧
     (runImages false regTwo ["r1:badtag", "r2"]).2 =
       (runImages false ((clean_repo false regTwo "r1:badtag").2) ["r2"]).2 ∧
     ∀ dockerized : Bool, ∀ collectorExit : Nat,
       (registry_cleaner_call false dockerized collectorExit ["r1:badtag", "r2"]
         regTwo).1 ≠ 0) :=
  ⟨by decide, C8_partial_failure false regTwo "r1:badtag" ["r2"] (by decide)⟩
